import Mathlib

set_option maxHeartbeats 1000000

/-!
Shallow embedding of `examples/conversation_model/conversation_model.py`
(classes `ConversationAgent` and `ConversationModel`) together with the
parts of the surrounding framework that the example delegates to.

Modelling conventions:
* The LLM client (`mesa_llm.llm.OpenAILLM.generate`) is an external black
  box: it is a parameter of type `LLM`, returning `Except.ok response` on
  success and `Except.error e` when the Python call would raise an
  exception whose string form is `e`.
* Python object identity of agents is modelled positionally: the agents
  of a model form a list, and an agent is identified by its index; the
  comparison `a != self` in `ConversationAgent.step` holds exactly for
  the entries at indices other than the acting agent's index.
* The shared random number generator (`self.random.choice`) is modelled
  by an explicit draw `r : Nat`; `random.choice(seq)` returns the entry
  at index `r % len(seq)`, so each entry of `seq` is selected by exactly
  one draw value below `len(seq)` (the uniform selection).
-/

/-- One entry of an agent's conversation history: the dict appended at
conversation_model.py lines 87-91 (greetings, no `responding_to` key) and
lines 116-121 (responses, with `responding_to`). -/
structure Message where
  speaker : String
  responding_to : Option Nat
  message : String
  step : Nat
deriving Repr, DecidableEq

/-- The persistent state of a `ConversationAgent`
(conversation_model.py lines 49-61): its unique id, personality string and
conversation history. -/
structure ConversationAgent where
  unique_id : Nat
  personality : String
  conversation_history : List Message
deriving Repr, DecidableEq

/-- The LLM client: a prompt is mapped to a completion (`Except.ok`) or to
the text of the raised exception (`Except.error`). -/
abbrev LLM := String → Except String String

/-- The greeting prompt built in `generate_greeting`
(conversation_model.py lines 80-83). -/
def greeting_prompt (personality : String) : String :=
  "You are a person with the following personality: " ++ personality ++
    "\n\nGenerate a short, casual greeting or opening statement (1-2 sentences).\nJust respond with the greeting, nothing else."

/-- The response prompt built in `respond_to`
(conversation_model.py lines 107-112). -/
def response_prompt (personality msg : String) : String :=
  "You are a person with the following personality: " ++ personality ++
    "\n\nSomeone just said to you: \"" ++ msg ++
    "\"\n\nRespond naturally in 1-2 sentences. Be conversational and stay in character.\nJust respond with your reply, nothing else."

/-- Embedding of `ConversationAgent.generate_greeting` (conversation_model.py lines
73-94): on success the response is appended to the agent's history with no
`responding_to` key and returned; if the LLM call raises, nothing is
appended and the placeholder string is returned. `steps` is the value of
`self.model.schedule.steps` read for the message's `step` field. -/
def generate_greeting (llm : LLM) (steps : Nat) (self : ConversationAgent) :
    String × ConversationAgent :=
  match llm (greeting_prompt self.personality) with
  | Except.ok response =>
      (response,
        { self with conversation_history := self.conversation_history ++
            [{ speaker := "Agent " ++ toString self.unique_id
             , responding_to := none
             , message := response
             , step := steps }] })
  | Except.error e => ("[Error generating greeting: " ++ e ++ "]", self)

/-- Embedding of `ConversationAgent.respond_to` (conversation_model.py lines 96-124):
on success the response is appended with `responding_to := speaker_id` and
returned; if the LLM call raises, nothing is appended and the placeholder
string is returned. -/
def respond_to (llm : LLM) (steps : Nat) (self : ConversationAgent)
    (msg : String) (speaker_id : Nat) : String × ConversationAgent :=
  match llm (response_prompt self.personality msg) with
  | Except.ok response =>
      (response,
        { self with conversation_history := self.conversation_history ++
            [{ speaker := "Agent " ++ toString self.unique_id
             , responding_to := some speaker_id
             , message := response
             , step := steps }] })
  | Except.error e => ("[Error generating response: " ++ e ++ "]", self)

/-- The list comprehension `[a for a in self.model.schedule.agents if a != self]`
(conversation_model.py line 139), with object identity modelled
positionally: every agent of the model at an index other than `i`. -/
def other_agents (agents : List ConversationAgent) (i : Nat) :
    List ConversationAgent :=
  ((List.range agents.length).filter (fun j => j != i)).filterMap agents.get?

/-- The filter `[a for a in other_agents if len(a.conversation_history) > 0]`
(conversation_model.py lines 143-144). -/
def agents_with_messages (agents : List ConversationAgent) (i : Nat) :
    List ConversationAgent :=
  (other_agents agents i).filter (fun a => decide (0 < a.conversation_history.length))

/-- Python's `random.choice(seq)`: uniform selection, modelled by an
explicit draw `r`; returns `none` exactly when `seq` is empty. -/
def random_choice {α : Type} (l : List α) (r : Nat) : Option α :=
  l.get? (r % l.length)

/-- Embedding of `ConversationAgent.step` (conversation_model.py lines 126-153), acting
on the model's agent list at index `i`. When `schedule.steps == 1` the
agent greets; otherwise it picks a random peer among the other agents that
have spoken and responds to that peer's last message. The two `none`
fall-through branches (`random_choice` on an empty filtered list, and
`getLast?` of a history that the filter guarantees non-empty) model the
`if agents_with_messages:` guard and the guarded `[-1]` indexing. -/
def ConversationAgent.step (llm : LLM) (steps r : Nat)
    (agents : List ConversationAgent) (i : Nat) : List ConversationAgent :=
  match agents.get? i with
  | none => agents
  | some self =>
    if steps = 1 then
      agents.set i (generate_greeting llm steps self).snd
    else
      match random_choice (agents_with_messages agents i) r with
      | none => agents
      | some target =>
        match target.conversation_history.getLast? with
        | none => agents
        | some last_message =>
          agents.set i (respond_to llm steps self last_message.message target.unique_id).snd

/- Concrete fixtures used by witnesses and counterexamples. -/

/-- An LLM client that always fails (raises) with exception text "boom". -/
def llm_fail : LLM := fun _ => Except.error "boom"

/-- An LLM client that always succeeds, echoing a fixed reply. -/
def reply_hi : String → String := fun _ => "hi"

/-- An LLM client that always succeeds with reply "hi". -/
def llm_hi : LLM := fun p => Except.ok (reply_hi p)

/-- A concrete agent with an empty conversation history. -/
def agent_a : ConversationAgent :=
  { unique_id := 0, personality := "friendly and outgoing", conversation_history := [] }

/-- A concrete message already logged by `agent_b`. -/
def msg_b : Message :=
  { speaker := "Agent 1", responding_to := none, message := "hello there", step := 1 }

/-- A concrete agent that has already spoken once. -/
def agent_b : ConversationAgent :=
  { unique_id := 1, personality := "shy and thoughtful", conversation_history := [msg_b] }

/-- The simulation state owned by `ConversationModel`
(conversation_model.py lines 167-212): the schedule's step counter and the
ordered agent collection held by the scheduler. -/
structure ConversationModel where
  steps : Nat
  agents : List ConversationAgent
deriving Repr, DecidableEq

/-- Modelled from the spec: the scheduler is `mesa.time.RandomActivation`
(conversation_model.py line 178), an external framework class whose source
is not part of this repository. Per the spec (section 4.1) `step()`
iterates a snapshot of the current membership; per the class name and the
repository's own comment "Random activation scheduling"
(conversation_model.py line 163) the iteration order is a random shuffle
of that snapshot, modelled by the `shuffle` outcome applied to the
snapshot of agent indices. -/
def agent_buffer (shuffle : List Nat → List Nat) (m : ConversationModel) : List Nat :=
  shuffle (List.range m.agents.length)

/-- Modelled from the spec: `ConversationModel.step` (conversation_model.py
lines 209-212) delegates to the scheduler's `step()`; per the spec
(section 4.3) the step counter is incremented for the new step and each
agent's per-step action is invoked exactly once over the snapshot — one
invocation per entry of `agent_buffer` — with each turn reading the
incremented counter and consuming the random draw `rs i` for acting index
`i`. The data-collector read that follows mutates no agent and is
omitted. -/
def schedule_step (llm : LLM) (shuffle : List Nat → List Nat) (rs : Nat → Nat)
    (m : ConversationModel) : ConversationModel :=
  { steps := m.steps + 1
  , agents := (agent_buffer shuffle m).foldl
      (fun acc i => ConversationAgent.step llm (m.steps + 1) (rs i) acc i) m.agents }

/-- A concrete two-agent model used for scheduler counterexamples. -/
def model_ab : ConversationModel := { steps := 1, agents := [agent_a, agent_b] }

/-- The five default personalities of `ConversationModel.__init__`
(conversation_model.py lines 181-188), used when none are provided. -/
def default_personalities : List String :=
  [ "friendly and outgoing"
  , "shy and thoughtful"
  , "humorous and witty"
  , "intellectual and curious"
  , "energetic and enthusiastic" ]

/-- Python's `str.lower`, modelled character-wise (`String.toLower` is
not kernel-reducible). -/
def py_lower (s : String) : String := String.mk (s.data.map Char.toLower)

/-- The state-relevant body of `ConversationAgent.__init__`
(conversation_model.py lines 49-71): an unknown provider raises
ValueError; otherwise the agent starts with the given id and personality
and an empty conversation history. The `OpenAILLM` client object itself
is external state and is carried separately as the `LLM` parameter of the
operations. -/
def conversation_agent_init (unique_id : Nat) (personality llm_provider : String) :
    Except String ConversationAgent :=
  if py_lower llm_provider = "openai" then
    Except.ok { unique_id := unique_id, personality := personality
              , conversation_history := [] }
  else Except.error ("Unknown LLM provider: " ++ llm_provider)

/-- The agent-creation loop of `ConversationModel.__init__`
(conversation_model.py lines 190-194) over the listed indices:
`personalities[i % len(personalities)]` raises ZeroDivisionError when the
personality list is empty (Python `i % 0`), and each created agent is
appended to the schedule in index order. -/
def create_agents (personalities : List String) (llm_provider : String) :
    List Nat → Except String (List ConversationAgent)
  | [] => Except.ok []
  | i :: rest =>
    match personalities.get? (i % personalities.length) with
    | none => Except.error "ZeroDivisionError: integer modulo by zero"
    | some p =>
      match conversation_agent_init i p llm_provider with
      | Except.error e => Except.error e
      | Except.ok a =>
        match create_agents personalities llm_provider rest with
        | Except.error e => Except.error e
        | Except.ok rest_agents => Except.ok (a :: rest_agents)

/-- Embedding of `ConversationModel.__init__` (conversation_model.py lines 167-207):
creates the `RandomActivation` schedule with its step counter at 0,
substitutes the five default personalities when none are given, and adds
`n_agents` agents with personalities assigned by index modulo the list
length. The data-collector setup reads but never mutates agent state and
is omitted. -/
def conversation_model_init (n_agents : Nat) (personalities : Option (List String))
    (llm_provider : String) : Except String ConversationModel :=
  let ps := personalities.getD default_personalities
  match create_agents ps llm_provider (List.range n_agents) with
  | Except.error e => Except.error e
  | Except.ok agents => Except.ok { steps := 0, agents := agents }

/-- The parameter names declared by `ConversationModel.__init__`
(conversation_model.py line 167). -/
def conversation_model_init_params : List String :=
  ["self", "n_agents", "personalities", "llm_provider"]

/-- A Python keyword-argument call binds without TypeError exactly when
every supplied keyword names a declared parameter. -/
def keyword_call_ok (params kwargs : List String) : Bool :=
  kwargs.all (fun k => params.contains k)

/-- The keywords of the construction call
`ConversationModel(n_agents=3, llm_model="openai/gpt-4o-mini")` made at
run_conversation.py line 35 and run_conversation_plain.py line 36. -/
def run_conversation_kwargs : List String := ["n_agents", "llm_model"]

/-- Invariant of the first scheduler step (the greeting round): the agents
whose turns have run (`done`) hold exactly one message, the rest none, and
no logged message carries a `responding_to` id. -/
def greeted (n : Nat) (done : List Nat) (ags : List ConversationAgent) : Prop :=
  ags.length = n ∧ ∀ j, j < n → ∃ a, ags.get? j = some a ∧ a.unique_id = j ∧
    a.conversation_history.length = (if j ∈ done then 1 else 0) ∧
    ∀ msg ∈ a.conversation_history, msg.responding_to = none

/-- Invariant of the second scheduler step (the response round): agents
whose turns have run hold two messages, the rest one, and any message at
history index 1 responds to some other agent of the model. -/
def responded (n : Nat) (done : List Nat) (ags : List ConversationAgent) : Prop :=
  ags.length = n ∧ ∀ j, j < n → ∃ a, ags.get? j = some a ∧ a.unique_id = j ∧
    a.conversation_history.length = (if j ∈ done then 2 else 1) ∧
    ∀ msg, a.conversation_history.get? 1 = some msg →
      ∃ k, msg.responding_to = some k ∧ k < n ∧ k ≠ j

/-- The model state right after `ConversationModel(n_agents=3)` with the
default personalities: step counter 0, three agents with empty
histories. -/
def model3 : ConversationModel :=
  { steps := 0
  , agents := [ ⟨0, "friendly and outgoing", []⟩
              , ⟨1, "shy and thoughtful", []⟩
              , ⟨2, "humorous and witty", []⟩ ] }

/- Basic helper lemmas about the embedding. -/

theorem list_set_get_self {α : Type} :
    ∀ (l : List α) (i : Nat) (a : α), l.get? i = some a → l.set i a = l := by
  intro l
  induction l with
  | nil => intro i a h; cases h
  | cons x xs ih =>
    intro i a h
    cases i with
    | zero =>
      have hx : x = a := by injection h
      subst hx; rfl
    | succ n =>
      have h' : xs.get? n = some a := h
      show x :: xs.set n a = x :: xs
      rw [ih n a h']

theorem random_choice_eq_none {α : Type} (l : List α) (r : Nat) :
    random_choice l r = none ↔ l = [] := by
  unfold random_choice
  constructor
  · intro h
    cases l with
    | nil => rfl
    | cons x xs =>
      exfalso
      have hle := List.get?_eq_none.mp h
      have hlt : r % (x :: xs).length < (x :: xs).length :=
        Nat.mod_lt _ (by simp)
      omega
  · intro h; subst h; simp

theorem random_choice_mem {α : Type} {l : List α} {r : Nat} {a : α}
    (h : random_choice l r = some a) : a ∈ l := by
  unfold random_choice at h
  exact List.get?_mem h

theorem mem_other_agents {agents : List ConversationAgent} {i : Nat}
    {t : ConversationAgent} (h : t ∈ other_agents agents i) :
    ∃ j, j ≠ i ∧ agents.get? j = some t := by
  unfold other_agents at h
  rw [List.mem_filterMap] at h
  obtain ⟨j, hj, hget⟩ := h
  rw [List.mem_filter] at hj
  refine ⟨j, ?_, hget⟩
  simpa using hj.2

theorem mem_agents_with_messages {agents : List ConversationAgent} {i : Nat}
    {t : ConversationAgent} (h : t ∈ agents_with_messages agents i) :
    (∃ j, j ≠ i ∧ agents.get? j = some t) ∧ t.conversation_history ≠ [] := by
  unfold agents_with_messages at h
  rw [List.mem_filter] at h
  refine ⟨mem_other_agents h.1, ?_⟩
  have h2 := h.2
  simp at h2
  exact List.ne_nil_of_length_pos h2

/-- C9: if the LLM call raises inside `generate_greeting` or `respond_to`,
the agent's conversation history is exactly as it was before the call (the
returned agent is unchanged, so no entry is appended) and the call
returns, instead of raising, a string beginning with "[Error generating". -/
theorem c9_error_path_appends_nothing_and_returns_placeholder
    (llm : LLM) (steps : Nat) (a : ConversationAgent) (e1 e2 mg : String) (sid : Nat)
    (h1 : llm (greeting_prompt a.personality) = Except.error e1)
    (h2 : llm (response_prompt a.personality mg) = Except.error e2) :
    generate_greeting llm steps a = ("[Error generating greeting: " ++ e1 ++ "]", a) ∧
    respond_to llm steps a mg sid = ("[Error generating response: " ++ e2 ++ "]", a) ∧
    (∃ s, (generate_greeting llm steps a).fst = "[Error generating" ++ s) ∧
    (∃ s, (respond_to llm steps a mg sid).fst = "[Error generating" ++ s) := by
  have hg : generate_greeting llm steps a = ("[Error generating greeting: " ++ e1 ++ "]", a) := by
    unfold generate_greeting; rw [h1]
  have hr : respond_to llm steps a mg sid = ("[Error generating response: " ++ e2 ++ "]", a) := by
    unfold respond_to; rw [h2]
  refine ⟨hg, hr, ⟨" greeting: " ++ e1 ++ "]", ?_⟩, ⟨" response: " ++ e2 ++ "]", ?_⟩⟩
  · rw [hg]
    show "[Error generating greeting: " ++ e1 ++ "]" = _
    rw [← String.append_assoc, ← String.append_assoc]; rfl
  · rw [hr]
    show "[Error generating response: " ++ e2 ++ "]" = _
    rw [← String.append_assoc, ← String.append_assoc]; rfl

/-- Witness for C9 at a concrete always-failing LLM and agent. -/
theorem c9_witness :
    generate_greeting llm_fail 1 agent_a = ("[Error generating greeting: boom]", agent_a) ∧
    respond_to llm_fail 1 agent_a "hi" 1 = ("[Error generating response: boom]", agent_a) ∧
    (∃ s, (generate_greeting llm_fail 1 agent_a).fst = "[Error generating" ++ s) ∧
    (∃ s, (respond_to llm_fail 1 agent_a "hi" 1).fst = "[Error generating" ++ s) :=
  c9_error_path_appends_nothing_and_returns_placeholder llm_fail 1 agent_a "boom" "boom" "hi" 1 rfl rfl

/-- C1 counterexample: with an always-failing LLM, a greeting turn appends
NO message at all — the history stays empty — while the claim demands that
exactly one placeholder message be appended; the placeholder text is only
the return value of the call. -/
theorem c1_counterexample :
    (generate_greeting llm_fail 1 agent_a).snd.conversation_history = [] ∧
    (generate_greeting llm_fail 1 agent_a).fst = "[Error generating greeting: boom]" ∧
    ConversationAgent.step llm_fail 1 0 [agent_a] 0 = [agent_a] := by
  refine ⟨rfl, rfl, rfl⟩

/-- C1 (amended): when the LLM client always fails, an agent turn never
propagates the exception and the step completes, but the agent appends no
message: the agent list is returned unchanged, and the visible error
placeholder embedding the failure description is only the return value of
`generate_greeting` / `respond_to` (which the caller prints), never a
logged message. -/
theorem c1_amended_failing_llm_turn_completes_appends_nothing
    (llm : LLM) (steps r : Nat) (agents : List ConversationAgent) (i : Nat)
    (hfail : ∀ p, ∃ e, llm p = Except.error e) :
    ConversationAgent.step llm steps r agents i = agents ∧
    (∀ a : ConversationAgent, ∃ e, llm (greeting_prompt a.personality) = Except.error e ∧
      (generate_greeting llm steps a).fst = "[Error generating greeting: " ++ e ++ "]" ∧
      (generate_greeting llm steps a).snd = a) ∧
    (∀ (a : ConversationAgent) (mg : String) (sid : Nat), ∃ e,
      llm (response_prompt a.personality mg) = Except.error e ∧
      (respond_to llm steps a mg sid).fst = "[Error generating response: " ++ e ++ "]" ∧
      (respond_to llm steps a mg sid).snd = a) := by
  refine ⟨?_, ?_, ?_⟩
  · cases hget : agents.get? i with
    | none => simp only [ConversationAgent.step, hget]
    | some self =>
      by_cases hs : steps = 1
      · subst hs
        obtain ⟨e, he⟩ := hfail (greeting_prompt self.personality)
        simp only [ConversationAgent.step, hget, if_pos rfl, generate_greeting, he]
        exact list_set_get_self agents i self hget
      · cases hc : random_choice (agents_with_messages agents i) r with
        | none => simp only [ConversationAgent.step, hget, if_neg hs, hc]
        | some target =>
          cases hl : target.conversation_history.getLast? with
          | none => simp only [ConversationAgent.step, hget, if_neg hs, hc, hl]
          | some lm =>
            obtain ⟨e, he⟩ := hfail (response_prompt self.personality lm.message)
            simp only [ConversationAgent.step, hget, if_neg hs, hc, hl, respond_to, he]
            exact list_set_get_self agents i self hget
  · intro a
    obtain ⟨e, he⟩ := hfail (greeting_prompt a.personality)
    refine ⟨e, he, ?_, ?_⟩ <;> · unfold generate_greeting; rw [he]
  · intro a mg sid
    obtain ⟨e, he⟩ := hfail (response_prompt a.personality mg)
    refine ⟨e, he, ?_, ?_⟩ <;> · unfold respond_to; rw [he]

/-- Witness for the amended C1 at a concrete always-failing LLM. -/
theorem c1_amended_witness :
    ConversationAgent.step llm_fail 2 0 [agent_a, agent_b] 0 = [agent_a, agent_b] :=
  (c1_amended_failing_llm_turn_completes_appends_nothing llm_fail 2 0 [agent_a, agent_b] 0
    (fun _ => ⟨"boom", rfl⟩)).1

theorem get?_set_of_ne {α : Type} (l : List α) (i j : Nat) (a : α) (h : i ≠ j) :
    (l.set i a).get? j = l.get? j := by
  simp [List.getElem?_set_ne h]

theorem get?_set_of_eq {α : Type} (l : List α) (i : Nat) (a b : α)
    (h : l.get? i = some b) : (l.set i a).get? i = some a := by
  rcases List.get?_eq_some.mp h with ⟨hi, _⟩
  simp [List.get?_eq_getElem?, List.getElem?_set_self, hi]

theorem lt_length_of_get?_eq_some {α : Type} {l : List α} {i : Nat} {a : α}
    (h : l.get? i = some a) : i < l.length := by
  rcases List.get?_eq_some.mp h with ⟨hi, _⟩
  exact hi

/-- The uniform-selection property of the modelled `random.choice`: every
draw value below the length selects the entry at exactly that index, so
each entry is selected by exactly one draw value below the length. -/
theorem random_choice_uniform {α : Type} (l : List α) :
    ∀ k, k < l.length → random_choice l k = l.get? k := by
  intro k hk
  unfold random_choice
  rw [Nat.mod_eq_of_lt hk]

/-- Exhaustive characterization of one agent turn
(`ConversationAgent.step` at an index holding an agent): the turn is a
successful greeting, a failed greeting, a silent responding turn (empty
filtered peer set), a successful response, or a failed response. The
fifth source branch (a chosen peer with an empty history) is impossible
because the peer is drawn from `agents_with_messages`. -/
theorem step_characterization (llm : LLM) (steps r : Nat)
    (agents : List ConversationAgent) (i : Nat) (self : ConversationAgent)
    (h : agents.get? i = some self) :
    (steps = 1 ∧ ∃ resp,
        llm (greeting_prompt self.personality) = Except.ok resp ∧
        ConversationAgent.step llm steps r agents i = agents.set i
          { self with conversation_history := self.conversation_history ++
              [⟨"Agent " ++ toString self.unique_id, none, resp, steps⟩] }) ∨
    (steps = 1 ∧ ∃ e,
        llm (greeting_prompt self.personality) = Except.error e ∧
        ConversationAgent.step llm steps r agents i = agents) ∨
    (steps ≠ 1 ∧ agents_with_messages agents i = [] ∧
        ConversationAgent.step llm steps r agents i = agents) ∨
    (steps ≠ 1 ∧ ∃ target lm resp,
        random_choice (agents_with_messages agents i) r = some target ∧
        target ∈ agents_with_messages agents i ∧
        target.conversation_history.getLast? = some lm ∧
        llm (response_prompt self.personality lm.message) = Except.ok resp ∧
        ConversationAgent.step llm steps r agents i = agents.set i
          { self with conversation_history := self.conversation_history ++
              [⟨"Agent " ++ toString self.unique_id, some target.unique_id, resp, steps⟩] }) ∨
    (steps ≠ 1 ∧ ∃ target lm e,
        random_choice (agents_with_messages agents i) r = some target ∧
        target.conversation_history.getLast? = some lm ∧
        llm (response_prompt self.personality lm.message) = Except.error e ∧
        ConversationAgent.step llm steps r agents i = agents) := by
  by_cases hs : steps = 1
  · subst hs
    cases he : llm (greeting_prompt self.personality) with
    | ok resp =>
      left
      refine ⟨rfl, resp, rfl, ?_⟩
      simp only [ConversationAgent.step, h, generate_greeting, he, eq_self_iff_true, if_true]
    | error e =>
      right; left
      refine ⟨rfl, e, rfl, ?_⟩
      simp only [ConversationAgent.step, h, generate_greeting, he, eq_self_iff_true, if_true]
      exact list_set_get_self agents i self h
  · cases hc : random_choice (agents_with_messages agents i) r with
    | none =>
      right; right; left
      refine ⟨hs, (random_choice_eq_none _ _).mp hc, ?_⟩
      simp only [ConversationAgent.step, h, if_neg hs, hc]
    | some target =>
      have hmem : target ∈ agents_with_messages agents i := random_choice_mem hc
      have hnil : target.conversation_history ≠ [] := (mem_agents_with_messages hmem).2
      cases hl : target.conversation_history.getLast? with
      | none => exact absurd (List.getLast?_eq_none_iff.mp hl) hnil
      | some lm =>
        cases he : llm (response_prompt self.personality lm.message) with
        | ok resp =>
          right; right; right; left
          refine ⟨hs, target, lm, resp, rfl, hmem, hl, he, ?_⟩
          simp only [ConversationAgent.step, h, if_neg hs, hc, hl, respond_to, he]
        | error e =>
          right; right; right; right
          refine ⟨hs, target, lm, e, rfl, hl, he, ?_⟩
          simp only [ConversationAgent.step, h, if_neg hs, hc, hl, respond_to, he]
          exact list_set_get_self agents i self h

/-- Every turn leaves the agent list equal to the original with at most
the acting agent's conversation history replaced. -/
theorem step_shape (llm : LLM) (steps r : Nat) (agents : List ConversationAgent)
    (i : Nat) (self : ConversationAgent) (h : agents.get? i = some self) :
    ∃ hist, ConversationAgent.step llm steps r agents i =
      agents.set i { self with conversation_history := hist } := by
  have hself : agents = agents.set i self := (list_set_get_self agents i self h).symm
  rcases step_characterization llm steps r agents i self h with
    ⟨_, resp, _, hstep⟩ | ⟨_, e, _, hstep⟩ | ⟨_, _, hstep⟩ |
    ⟨_, target, lm, resp, _, _, _, _, hstep⟩ | ⟨_, target, lm, e, _, _, _, hstep⟩
  · exact ⟨_, hstep⟩
  · exact ⟨self.conversation_history, by rw [hstep]; exact hself⟩
  · exact ⟨self.conversation_history, by rw [hstep]; exact hself⟩
  · exact ⟨_, hstep⟩
  · exact ⟨self.conversation_history, by rw [hstep]; exact hself⟩

/-- C7: a turn mutates only the acting agent's own conversation history:
the resulting agent list is the original with just the entry at the acting
index replaced by an agent with the same unique id and personality, and
every other agent's personality and conversation history are unchanged. -/
theorem c7_turn_mutates_only_actor_history
    (llm : LLM) (steps r : Nat) (agents : List ConversationAgent) (i : Nat)
    (self : ConversationAgent) (h : agents.get? i = some self) :
    ∃ hist, ConversationAgent.step llm steps r agents i =
        agents.set i { self with conversation_history := hist } ∧
      (∀ j, j ≠ i → (ConversationAgent.step llm steps r agents i).get? j = agents.get? j) ∧
      (ConversationAgent.step llm steps r agents i).get? i =
        some { self with conversation_history := hist } := by
  obtain ⟨hist, hstep⟩ := step_shape llm steps r agents i self h
  refine ⟨hist, hstep, ?_, ?_⟩
  · intro j hj
    rw [hstep]
    exact get?_set_of_ne agents i j _ (fun hij => hj hij.symm)
  · rw [hstep]
    exact get?_set_of_eq agents i _ self h

/-- Witness for C7 at a concrete greeting turn. -/
theorem c7_witness :
    ∃ hist, ConversationAgent.step llm_hi 1 0 [agent_a, agent_b] 0 =
        [agent_a, agent_b].set 0 { agent_a with conversation_history := hist } ∧
      (∀ j, j ≠ 0 → (ConversationAgent.step llm_hi 1 0 [agent_a, agent_b] 0).get? j =
        [agent_a, agent_b].get? j) ∧
      (ConversationAgent.step llm_hi 1 0 [agent_a, agent_b] 0).get? 0 =
        some { agent_a with conversation_history := hist } :=
  c7_turn_mutates_only_actor_history llm_hi 1 0 [agent_a, agent_b] 0 agent_a rfl

/-- C6 counterexample: a greeting turn (schedule step 1, so the agent is
NOT in Responding state) with a failing LLM appends zero messages, even
though the filtered peer set is non-empty — so "zero only in Responding
state with an empty filtered peer set" is false on the code. -/
theorem c6_counterexample :
    ConversationAgent.step llm_fail 1 0 [agent_a, agent_b] 0 = [agent_a, agent_b] ∧
    agents_with_messages [agent_a, agent_b] 0 ≠ [] ∧ (1 : Nat) = 1 := by
  refine ⟨rfl, ?_, rfl⟩
  decide

/-- C6 (amended): during its turn an agent appends at most one message to
its own history, and it appends zero exactly in one of these cases: it is
in Responding state with an empty filtered peer set (and then the turn
makes no LLM call at all — the result does not depend on the LLM client),
or the LLM call of the turn fails. -/
theorem c6_amended_at_most_one_message_per_turn
    (llm : LLM) (steps r : Nat) (agents : List ConversationAgent) (i : Nat)
    (self : ConversationAgent) (h : agents.get? i = some self) :
    (∃ new_msgs : List Message, new_msgs.length ≤ 1 ∧
      (ConversationAgent.step llm steps r agents i).get? i =
        some { self with conversation_history := self.conversation_history ++ new_msgs } ∧
      (new_msgs = [] →
        (steps ≠ 1 ∧ agents_with_messages agents i = []) ∨
        (steps = 1 ∧ ∃ e, llm (greeting_prompt self.personality) = Except.error e) ∨
        (steps ≠ 1 ∧ ∃ target lm e,
          random_choice (agents_with_messages agents i) r = some target ∧
          target.conversation_history.getLast? = some lm ∧
          llm (response_prompt self.personality lm.message) = Except.error e))) ∧
    (steps ≠ 1 → agents_with_messages agents i = [] →
      ConversationAgent.step llm steps r agents i = agents ∧
      ∀ llm' : LLM, ConversationAgent.step llm' steps r agents i = agents) := by
  constructor
  · have hid : (ConversationAgent.step llm steps r agents i = agents) →
        (ConversationAgent.step llm steps r agents i).get? i =
          some { self with conversation_history := self.conversation_history ++ [] } := by
      intro hstep
      rw [hstep, h, List.append_nil]
    rcases step_characterization llm steps r agents i self h with
      ⟨hs, resp, he, hstep⟩ | ⟨hs, e, he, hstep⟩ | ⟨hs, hempty, hstep⟩ |
      ⟨hs, target, lm, resp, hc, hmem, hl, he, hstep⟩ | ⟨hs, target, lm, e, hc, hl, he, hstep⟩
    · refine ⟨[⟨"Agent " ++ toString self.unique_id, none, resp, steps⟩], by simp, ?_, ?_⟩
      · rw [hstep]
        exact get?_set_of_eq agents i _ self h
      · intro hcontra; cases hcontra
    · exact ⟨[], by simp, hid hstep, fun _ => Or.inr (Or.inl ⟨hs, e, he⟩)⟩
    · exact ⟨[], by simp, hid hstep, fun _ => Or.inl ⟨hs, hempty⟩⟩
    · refine ⟨[⟨"Agent " ++ toString self.unique_id, some target.unique_id, resp, steps⟩],
        by simp, ?_, ?_⟩
      · rw [hstep]
        exact get?_set_of_eq agents i _ self h
      · intro hcontra; cases hcontra
    · exact ⟨[], by simp, hid hstep,
        fun _ => Or.inr (Or.inr ⟨hs, target, lm, e, hc, hl, he⟩)⟩
  · intro hs hempty
    have hnone : ∀ llm' : LLM, ConversationAgent.step llm' steps r agents i = agents := by
      intro llm'
      simp only [ConversationAgent.step, h, if_neg hs,
        (random_choice_eq_none (agents_with_messages agents i) r).mpr hempty]
    exact ⟨hnone llm, hnone⟩

/-- Witness for the amended C6 at a concrete responding turn. -/
theorem c6_amended_witness :
    (∃ new_msgs : List Message, new_msgs.length ≤ 1 ∧
      (ConversationAgent.step llm_hi 2 0 [agent_a, agent_b] 0).get? 0 =
        some { agent_a with conversation_history := agent_a.conversation_history ++ new_msgs } ∧
      (new_msgs = [] →
        ((2 : Nat) ≠ 1 ∧ agents_with_messages [agent_a, agent_b] 0 = []) ∨
        ((2 : Nat) = 1 ∧ ∃ e, llm_hi (greeting_prompt agent_a.personality) = Except.error e) ∨
        ((2 : Nat) ≠ 1 ∧ ∃ target lm e,
          random_choice (agents_with_messages [agent_a, agent_b] 0) 0 = some target ∧
          target.conversation_history.getLast? = some lm ∧
          llm_hi (response_prompt agent_a.personality lm.message) = Except.error e))) ∧
    ((2 : Nat) ≠ 1 → agents_with_messages [agent_a, agent_b] 0 = [] →
      ConversationAgent.step llm_hi 2 0 [agent_a, agent_b] 0 = [agent_a, agent_b] ∧
      ∀ llm' : LLM, ConversationAgent.step llm' 2 0 [agent_a, agent_b] 0 = [agent_a, agent_b]) :=
  c6_amended_at_most_one_message_per_turn llm_hi 2 0 [agent_a, agent_b] 0 agent_a rfl

/-- C5: every message appended during a turn whose `responding_to` field
is present references the unique id of an agent that already had at least
one logged message strictly before the response was generated (i.e. in
the pre-turn state). -/
theorem c5_responding_to_references_prior_speaker
    (llm : LLM) (steps r : Nat) (agents : List ConversationAgent) (i : Nat) :
    ∀ (j : Nat) (a a' : ConversationAgent),
      agents.get? j = some a →
      (ConversationAgent.step llm steps r agents i).get? j = some a' →
      ∃ new_msgs, a'.conversation_history = a.conversation_history ++ new_msgs ∧
        ∀ msg ∈ new_msgs, ∀ k, msg.responding_to = some k →
          ∃ j' t, j' ≠ i ∧ agents.get? j' = some t ∧ t.unique_id = k ∧
            t.conversation_history ≠ [] := by
  intro j a a' ha ha'
  have same : (ConversationAgent.step llm steps r agents i).get? j = agents.get? j →
      ∃ new_msgs, a'.conversation_history = a.conversation_history ++ new_msgs ∧
        ∀ msg ∈ new_msgs, ∀ k, msg.responding_to = some k →
          ∃ j' t, j' ≠ i ∧ agents.get? j' = some t ∧ t.unique_id = k ∧
            t.conversation_history ≠ [] := by
    intro heq
    rw [heq, ha] at ha'
    have : a = a' := by injection ha'
    subst this
    refine ⟨[], by simp, ?_⟩
    intro msg hm
    exact absurd hm (List.not_mem_nil msg)
  cases hget : agents.get? i with
  | none =>
    refine same ?_
    simp only [ConversationAgent.step, hget]
  | some self =>
    by_cases hj : j = i
    · subst hj
      have hsa : a = self := by rw [ha] at hget; injection hget
      subst hsa
      rcases step_characterization llm steps r agents j a hget with
        ⟨hs, resp, he, hstep⟩ | ⟨hs, e, he, hstep⟩ | ⟨hs, hempty, hstep⟩ |
        ⟨hs, target, lm, resp, hc, hmem, hl, he, hstep⟩ | ⟨hs, target, lm, e, hc, hl, he, hstep⟩
      · rw [hstep, get?_set_of_eq agents j _ a hget] at ha'
        injection ha' with ha''
        subst ha''
        refine ⟨[⟨"Agent " ++ toString a.unique_id, none, resp, steps⟩], rfl, ?_⟩
        intro msg hm k hk
        rw [List.mem_singleton] at hm
        subst hm
        cases hk
      · exact same (by rw [hstep])
      · exact same (by rw [hstep])
      · rw [hstep, get?_set_of_eq agents j _ a hget] at ha'
        injection ha' with ha''
        subst ha''
        refine ⟨[⟨"Agent " ++ toString a.unique_id, some target.unique_id, resp, steps⟩], rfl, ?_⟩
        intro msg hm k hk
        rw [List.mem_singleton] at hm
        subst hm
        obtain ⟨⟨j', hj', hget'⟩, hne⟩ := mem_agents_with_messages hmem
        have hks : target.unique_id = k := by injection hk
        exact ⟨j', target, hj', hget', hks, hne⟩
      · exact same (by rw [hstep])
    · obtain ⟨hist, hstep⟩ := step_shape llm steps r agents i self hget
      refine same ?_
      rw [hstep]
      exact get?_set_of_ne agents i j _ (fun hij => hj hij.symm)

/-- Witness for C5 at a concrete responding turn: agent 0 responds to
agent 1, which had already spoken. -/
theorem c5_witness :
    ∃ new_msgs,
      ({ agent_a with conversation_history :=
          [⟨"Agent 0", some 1, "hi", 2⟩] } : ConversationAgent).conversation_history =
        agent_a.conversation_history ++ new_msgs ∧
      ∀ msg ∈ new_msgs, ∀ k, msg.responding_to = some k →
        ∃ j' t, j' ≠ 0 ∧ [agent_a, agent_b].get? j' = some t ∧ t.unique_id = k ∧
          t.conversation_history ≠ [] :=
  c5_responding_to_references_prior_speaker llm_hi 2 0 [agent_a, agent_b] 0 0 agent_a
    { agent_a with conversation_history := [⟨"Agent 0", some 1, "hi", 2⟩] } rfl rfl

/-- C2: in Responding state (schedule step other than 1) with a non-empty
filtered peer set, and with the LLM call returning, the turn selects
exactly one peer from the filtered set — uniformly, in that every draw
value below the set's size selects the distinct peer at that index —
reads that peer's most recently appended message, and appends to its own
history exactly one new message whose `responding_to` field is the chosen
peer's unique id and whose text is the LLM completion of the response
prompt built from the peer's last message. -/
theorem c2_responding_turn_selects_uniform_peer
    (llm : LLM) (f : String → String) (steps r : Nat)
    (agents : List ConversationAgent) (i : Nat) (self : ConversationAgent)
    (hllm : ∀ p, llm p = Except.ok (f p))
    (h : agents.get? i = some self)
    (hs : steps ≠ 1)
    (hne : agents_with_messages agents i ≠ []) :
    (∃ target lm,
      random_choice (agents_with_messages agents i) r = some target ∧
      target ∈ agents_with_messages agents i ∧
      target.conversation_history.getLast? = some lm ∧
      ConversationAgent.step llm steps r agents i = agents.set i
        { self with conversation_history := self.conversation_history ++
            [⟨"Agent " ++ toString self.unique_id, some target.unique_id,
              f (response_prompt self.personality lm.message), steps⟩] }) ∧
    (∀ k, k < (agents_with_messages agents i).length →
      random_choice (agents_with_messages agents i) k =
        (agents_with_messages agents i).get? k) := by
  refine ⟨?_, fun k hk => random_choice_uniform _ k hk⟩
  rcases step_characterization llm steps r agents i self h with
    ⟨hs1, _, _, _⟩ | ⟨hs1, _, _, _⟩ | ⟨_, hempty, _⟩ |
    ⟨_, target, lm, resp, hc, hmem, hl, he, hstep⟩ | ⟨_, target, lm, e, hc, hl, he, hstep⟩
  · exact absurd hs1 hs
  · exact absurd hs1 hs
  · exact absurd hempty hne
  · have hresp : resp = f (response_prompt self.personality lm.message) := by
      rw [hllm (response_prompt self.personality lm.message)] at he
      injection he with he'
      exact he'.symm
    subst hresp
    exact ⟨target, lm, hc, hmem, hl, hstep⟩
  · rw [hllm (response_prompt self.personality lm.message)] at he
    cases he

/-- Witness for C2: agent 0 responds; the only peer with a message is
agent 1. -/
theorem c2_witness :
    (∃ target lm,
      random_choice (agents_with_messages [agent_a, agent_b] 0) 0 = some target ∧
      target ∈ agents_with_messages [agent_a, agent_b] 0 ∧
      target.conversation_history.getLast? = some lm ∧
      ConversationAgent.step llm_hi 2 0 [agent_a, agent_b] 0 = [agent_a, agent_b].set 0
        { agent_a with conversation_history := agent_a.conversation_history ++
            [⟨"Agent " ++ toString agent_a.unique_id, some target.unique_id,
              reply_hi (response_prompt agent_a.personality lm.message), 2⟩] }) ∧
    (∀ k, k < (agents_with_messages [agent_a, agent_b] 0).length →
      random_choice (agents_with_messages [agent_a, agent_b] 0) k =
        (agents_with_messages [agent_a, agent_b] 0).get? k) :=
  c2_responding_turn_selects_uniform_peer llm_hi reply_hi 2 0 [agent_a, agent_b] 0 agent_a
    (fun _ => rfl) rfl (by decide) (by decide)

/-- C3 counterexample: reversal is a possible outcome of the random
shuffle (it is a permutation of the snapshot), and under it the turn
invocation order is [1, 0], not the add-order [0, 1]. -/
theorem c3_counterexample :
    (List.reverse (List.range 2)).Perm (List.range 2) ∧
    agent_buffer List.reverse model_ab = [1, 0] ∧
    agent_buffer List.reverse model_ab ≠ List.range 2 := by
  refine ⟨by decide, rfl, by decide⟩

/-- C3 (amended): one scheduler step on a fixed N-agent model performs
exactly N turn invocations — each agent's per-step action exactly once,
one invocation per entry of the shuffled snapshot — but in the shuffled
order, which need not be the order in which the agents were added. -/
theorem c3_amended_each_agent_invoked_exactly_once
    (llm : LLM) (shuffle : List Nat → List Nat) (rs : Nat → Nat)
    (m : ConversationModel)
    (hperm : (agent_buffer shuffle m).Perm (List.range m.agents.length)) :
    (agent_buffer shuffle m).length = m.agents.length ∧
    (∀ i, i < m.agents.length → (agent_buffer shuffle m).count i = 1) ∧
    schedule_step llm shuffle rs m =
      { steps := m.steps + 1
      , agents := (agent_buffer shuffle m).foldl
          (fun acc i => ConversationAgent.step llm (m.steps + 1) (rs i) acc i) m.agents } := by
  refine ⟨?_, ?_, rfl⟩
  · rw [hperm.length_eq, List.length_range]
  · intro i hi
    rw [hperm.count_eq]
    simp [List.count_eq_one_of_mem, List.nodup_range, List.mem_range, hi]

/-- Witness for the amended C3 with the identity shuffle on the two-agent
model. -/
theorem c3_amended_witness :
    (agent_buffer id model_ab).length = model_ab.agents.length ∧
    (∀ i, i < model_ab.agents.length → (agent_buffer id model_ab).count i = 1) ∧
    schedule_step llm_hi id (fun _ => 0) model_ab =
      { steps := model_ab.steps + 1
      , agents := (agent_buffer id model_ab).foldl
          (fun acc i => ConversationAgent.step llm_hi (model_ab.steps + 1) ((fun _ => 0) i) acc i)
          model_ab.agents } :=
  c3_amended_each_agent_invoked_exactly_once llm_hi id (fun _ => 0) model_ab (by decide)

theorem create_agents_ok (ps : List String) (hne : ps ≠ []) :
    ∀ l : List Nat, ∃ agents, create_agents ps "openai" l = Except.ok agents ∧
      agents.length = l.length ∧
      ∀ (k i : Nat), l.get? k = some i → ∃ p,
        ps.get? (i % ps.length) = some p ∧
        agents.get? k = some ⟨i, p, []⟩ := by
  intro l
  induction l with
  | nil =>
    refine ⟨[], rfl, rfl, ?_⟩
    intro k i h
    cases h
  | cons j rest ih =>
    obtain ⟨agents, hok, hlen, hget⟩ := ih
    have hmod : j % ps.length < ps.length :=
      Nat.mod_lt _ (List.length_pos.mpr hne)
    obtain ⟨p, hp⟩ : ∃ p, ps.get? (j % ps.length) = some p := by
      cases hq : ps.get? (j % ps.length) with
      | none =>
        have := List.get?_eq_none.mp hq
        omega
      | some p => exact ⟨p, rfl⟩
    refine ⟨⟨j, p, []⟩ :: agents, ?_, by simp [hlen], ?_⟩
    · simp only [create_agents, hp, conversation_agent_init, hok]
      rfl
    · intro k i h
      cases k with
      | zero =>
        have hij : j = i := by injection h
        subst hij
        exact ⟨p, hp, rfl⟩
      | succ k' =>
        exact hget k' i h

/-- C10: for every agent count and non-empty personality list, model
construction succeeds and assigns agent `i` the personality at index
`i % len(personalities)`, so personalities are reused cyclically; with no
list given, the five default personalities are used the same way. -/
theorem c10_personalities_assigned_cyclically
    (n : Nat) (ps : List String) (hne : ps ≠ []) :
    (∃ m, conversation_model_init n (some ps) "openai" = Except.ok m ∧
      m.steps = 0 ∧ m.agents.length = n ∧
      ∀ i, i < n → ∃ p, ps.get? (i % ps.length) = some p ∧
        m.agents.get? i = some ⟨i, p, []⟩) ∧
    default_personalities.length = 5 ∧
    conversation_model_init n none "openai" =
      conversation_model_init n (some default_personalities) "openai" := by
  refine ⟨?_, rfl, rfl⟩
  obtain ⟨agents, hok, hlen, hget⟩ := create_agents_ok ps hne (List.range n)
  refine ⟨{ steps := 0, agents := agents }, ?_, rfl, by simp [hlen], ?_⟩
  · simp only [conversation_model_init, Option.getD, hok]
  · intro i hi
    exact hget i i (by simp [List.getElem?_range, hi])

/-- Witness for C10: seven agents over a three-personality list. -/
theorem c10_witness :
    (∃ m, conversation_model_init 7 (some ["x", "y", "z"]) "openai" = Except.ok m ∧
      m.steps = 0 ∧ m.agents.length = 7 ∧
      ∀ i, i < 7 → ∃ p, (["x", "y", "z"] : List String).get? (i % 3) = some p ∧
        m.agents.get? i = some ⟨i, p, []⟩) ∧
    default_personalities.length = 5 ∧
    conversation_model_init 7 none "openai" =
      conversation_model_init 7 (some default_personalities) "openai" :=
  c10_personalities_assigned_cyclically 7 ["x", "y", "z"] (by decide)

/-- C8: `ConversationModel.__init__` declares `n_agents`, `personalities`
and `llm_provider` but no `llm_model` parameter, so the runners' actual
construction call with an LLM model identifier
(`llm_model="openai/gpt-4o-mini"`) raises TypeError rather than
succeeding, while a call using the declared keywords binds. -/
theorem c8_llm_model_keyword_not_accepted :
    keyword_call_ok conversation_model_init_params run_conversation_kwargs = false ∧
    keyword_call_ok conversation_model_init_params
      ["n_agents", "personalities", "llm_provider"] = true := by
  constructor <;> rfl

theorem mem_agents_with_messages_intro {agents : List ConversationAgent}
    {i j : Nat} {t : ConversationAgent} (hj : j ≠ i)
    (hget : agents.get? j = some t)
    (ht : 0 < t.conversation_history.length) :
    t ∈ agents_with_messages agents i := by
  unfold agents_with_messages other_agents
  rw [List.mem_filter]
  constructor
  · rw [List.mem_filterMap]
    refine ⟨j, ?_, hget⟩
    rw [List.mem_filter]
    exact ⟨List.mem_range.mpr (lt_length_of_get?_eq_some hget), by simpa using hj⟩
  · simpa using ht

theorem mem_exists_get? {α : Type} {l : List α} {a : α} (h : a ∈ l) :
    ∃ n, l.get? n = some a := by
  obtain ⟨⟨n, hn⟩, rfl⟩ := List.mem_iff_get.mp h
  exact ⟨n, by rw [List.get?_eq_get hn]⟩

theorem greet_step_inv (llm : LLM) (f : String → String)
    (hllm : ∀ p, llm p = Except.ok (f p)) (n r : Nat)
    (done : List Nat) (ags : List ConversationAgent) (i : Nat)
    (hi : i < n) (hnd : i ∉ done) (hG : greeted n done ags) :
    greeted n (i :: done) (ConversationAgent.step llm 1 r ags i) := by
  obtain ⟨hlen, hall⟩ := hG
  obtain ⟨self, hself, hid, hhlen, hnone⟩ := hall i (by omega)
  rcases step_characterization llm 1 r ags i self hself with
    ⟨_, resp, he, hstep⟩ | ⟨_, e, he, hstep⟩ | ⟨hs, _, _⟩ |
    ⟨hs, _⟩ | ⟨hs, _⟩
  · constructor
    · rw [hstep, List.length_set]; exact hlen
    · intro j hj
      by_cases hji : j = i
      · subst hji
        refine ⟨{ self with conversation_history := self.conversation_history ++
            [⟨"Agent " ++ toString self.unique_id, none, resp, 1⟩] },
            by rw [hstep]; exact get?_set_of_eq ags j _ self hself, hid, ?_, ?_⟩
        · have h0 : self.conversation_history.length = 0 := by
            rw [hhlen, if_neg hnd]
          simp [h0]
        · intro msg hmsg
          rcases List.mem_append.mp hmsg with hm | hm
          · exact hnone msg hm
          · rw [List.mem_singleton] at hm; subst hm; rfl
      · obtain ⟨a, ha, haid, halen, hanone⟩ := hall j hj
        refine ⟨a, ?_, haid, ?_, hanone⟩
        · rw [hstep, get?_set_of_ne ags i j _ (fun hij => hji hij.symm)]; exact ha
        · rw [halen]
          by_cases hd : j ∈ done
          · rw [if_pos hd, if_pos (List.mem_cons_of_mem i hd)]
          · rw [if_neg hd, if_neg (by simp [List.mem_cons, hji, hd])]
  · rw [hllm (greeting_prompt self.personality)] at he; cases he
  · exact absurd rfl hs
  · exact absurd rfl hs
  · exact absurd rfl hs

theorem respond_step_inv (llm : LLM) (f : String → String)
    (hllm : ∀ p, llm p = Except.ok (f p)) (n steps r : Nat)
    (hsteps : steps ≠ 1) (hn : 2 ≤ n)
    (done : List Nat) (ags : List ConversationAgent) (i : Nat)
    (hi : i < n) (hnd : i ∉ done) (hR : responded n done ags) :
    responded n (i :: done) (ConversationAgent.step llm steps r ags i) := by
  obtain ⟨hlen, hall⟩ := hR
  obtain ⟨self, hself, hid, hhlen, hresp1⟩ := hall i hi
  obtain ⟨j0, hj0n, hj0i⟩ : ∃ j0, j0 < n ∧ j0 ≠ i := by
    by_cases h0 : i = 0
    · exact ⟨1, by omega, by omega⟩
    · exact ⟨0, by omega, fun h => h0 h.symm⟩
  obtain ⟨a0, ha0, _, ha0len, _⟩ := hall j0 hj0n
  have ha0pos : 0 < a0.conversation_history.length := by
    rw [ha0len]
    by_cases hd : j0 ∈ done
    · rw [if_pos hd]; omega
    · rw [if_neg hd]; omega
  have hne : agents_with_messages ags i ≠ [] :=
    List.ne_nil_of_mem (mem_agents_with_messages_intro hj0i ha0 ha0pos)
  rcases step_characterization llm steps r ags i self hself with
    ⟨hs, _⟩ | ⟨hs, _⟩ | ⟨_, hempty, _⟩ |
    ⟨_, target, lm, resp, hc, hmemt, hlm, he, hstep⟩ |
    ⟨_, target, lm, e, hc, hlm, he, hstep⟩
  · exact absurd hs hsteps
  · exact absurd hs hsteps
  · exact absurd hempty hne
  · obtain ⟨⟨jt, hjti, hjtget⟩, _⟩ := mem_agents_with_messages hmemt
    have hjtn : jt < n := by
      have := lt_length_of_get?_eq_some hjtget
      omega
    obtain ⟨tjag, htj, htjid, _, _⟩ := hall jt hjtn
    have htid : target.unique_id = jt := by
      rw [hjtget] at htj
      injection htj with htj'
      rw [htj']
      exact htjid
    have hslen : self.conversation_history.length = 1 := by
      rw [hhlen, if_neg hnd]
    constructor
    · rw [hstep, List.length_set]; exact hlen
    · intro j hj
      by_cases hji : j = i
      · subst hji
        refine ⟨{ self with conversation_history := self.conversation_history ++
            [⟨"Agent " ++ toString self.unique_id, some target.unique_id, resp, steps⟩] },
            by rw [hstep]; exact get?_set_of_eq ags j _ self hself, hid, ?_, ?_⟩
        · simp [hslen]
        · intro msg hmsg
          have hget1 : (self.conversation_history ++
              [(⟨"Agent " ++ toString self.unique_id, some target.unique_id, resp, steps⟩ :
                Message)]).get? 1 =
              some ⟨"Agent " ++ toString self.unique_id, some target.unique_id, resp, steps⟩ := by
            rw [List.get?_append_right (le_of_eq hslen), hslen]
            rfl
          rw [hget1] at hmsg
          injection hmsg with hmsg'
          subst hmsg'
          exact ⟨target.unique_id, rfl, by omega, by omega⟩
      · obtain ⟨a, ha, haid, halen, haresp⟩ := hall j hj
        refine ⟨a, ?_, haid, ?_, haresp⟩
        · rw [hstep, get?_set_of_ne ags i j _ (fun hij => hji hij.symm)]; exact ha
        · rw [halen]
          by_cases hd : j ∈ done
          · rw [if_pos hd, if_pos (List.mem_cons_of_mem i hd)]
          · rw [if_neg hd, if_neg (by simp [List.mem_cons, hji, hd])]
  · rw [hllm (response_prompt self.personality lm.message)] at he; cases he

theorem foldl_inv (P : List Nat → List ConversationAgent → Prop)
    (step_fn : List ConversationAgent → Nat → List ConversationAgent) (n : Nat)
    (hstep : ∀ done ags i, i < n → i ∉ done → P done ags → P (i :: done) (step_fn ags i)) :
    ∀ (idxs done : List Nat) (ags : List ConversationAgent),
      idxs.Nodup → (∀ i ∈ idxs, i < n ∧ i ∉ done) → P done ags →
      ∃ done2, (∀ j, j ∈ done2 ↔ j ∈ idxs ∨ j ∈ done) ∧
        P done2 (idxs.foldl step_fn ags) := by
  intro idxs
  induction idxs with
  | nil =>
    intro done ags _ _ hP
    exact ⟨done, fun j => by simp, hP⟩
  | cons i rest ih =>
    intro done ags hnd hlt hP
    have hi := hlt i (List.mem_cons_self i rest)
    have hP' : P (i :: done) (step_fn ags i) := hstep done ags i hi.1 hi.2 hP
    have hnd' : rest.Nodup := (List.nodup_cons.mp hnd).2
    have hlt' : ∀ x ∈ rest, x < n ∧ x ∉ i :: done := by
      intro x hx
      have hx2 := hlt x (List.mem_cons_of_mem i hx)
      refine ⟨hx2.1, ?_⟩
      intro hmem
      rcases List.mem_cons.mp hmem with h1 | h2
      · exact (List.nodup_cons.mp hnd).1 (h1 ▸ hx)
      · exact hx2.2 h2
    obtain ⟨done2, hd2, hP2⟩ := ih (i :: done) (step_fn ags i) hnd' hlt' hP'
    refine ⟨done2, ?_, hP2⟩
    intro j
    rw [hd2 j]
    simp only [List.mem_cons]
    tauto

/-- C4: with three agents and an LLM client that returns, the first
scheduler step produces exactly one greeting message per agent — three in
total, none carrying a `responding_to` field — and the second step
appends exactly one response message per agent — three in total, each
with `responding_to` one of the other two agents. Both random shuffle
outcomes may be any permutation of the three indices. -/
theorem c4_first_step_greetings_second_step_responses
    (llm : LLM) (f : String → String) (hllm : ∀ p, llm p = Except.ok (f p))
    (shuffle1 shuffle2 : List Nat → List Nat) (rs1 rs2 : Nat → Nat)
    (m0 m1 m2 : ConversationModel)
    (hm0 : conversation_model_init 3 none "openai" = Except.ok m0)
    (hm1 : m1 = schedule_step llm shuffle1 rs1 m0)
    (hm2 : m2 = schedule_step llm shuffle2 rs2 m1)
    (h1 : List.Perm (agent_buffer shuffle1 m0) (List.range 3))
    (h2 : List.Perm (agent_buffer shuffle2 m1) (List.range 3)) :
    (m1.agents.length = 3 ∧
      ∀ a ∈ m1.agents, a.conversation_history.length = 1 ∧
        ∀ msg ∈ a.conversation_history, msg.responding_to = none) ∧
    (m2.agents.length = 3 ∧
      ∀ a ∈ m2.agents, a.unique_id < 3 ∧ a.conversation_history.length = 2 ∧
        ∀ msg, a.conversation_history.get? 1 = some msg →
          ∃ k, msg.responding_to = some k ∧ k < 3 ∧ k ≠ a.unique_id) := by
  have hm0c : conversation_model_init 3 none "openai" = Except.ok model3 := rfl
  rw [hm0c] at hm0
  injection hm0 with hm0'
  subst hm0'
  subst hm1
  subst hm2
  have hG0 : greeted 3 [] model3.agents := by
    refine ⟨rfl, ?_⟩
    intro j hj
    interval_cases j
    · exact ⟨_, rfl, rfl, by simp, by simp⟩
    · exact ⟨_, rfl, rfl, by simp, by simp⟩
    · exact ⟨_, rfl, rfl, by simp, by simp⟩
  obtain ⟨done1, hdone1, hG1⟩ :=
    foldl_inv (greeted 3)
      (fun acc i => ConversationAgent.step llm (model3.steps + 1) (rs1 i) acc i) 3
      (fun done ags i hi hnd hG => greet_step_inv llm f hllm 3 (rs1 i) done ags i hi hnd hG)
      (agent_buffer shuffle1 model3) [] model3.agents
      (h1.nodup_iff.mpr (List.nodup_range 3))
      (fun i hi => ⟨List.mem_range.mp (h1.mem_iff.mp hi), List.not_mem_nil i⟩)
      hG0
  have hG1m : greeted 3 done1 (schedule_step llm shuffle1 rs1 model3).agents := hG1
  have hd1all : ∀ j, j < 3 → j ∈ done1 := fun j hj =>
    (hdone1 j).mpr (Or.inl (h1.mem_iff.mpr (List.mem_range.mpr hj)))
  refine ⟨⟨hG1m.1, ?_⟩, ?_⟩
  · intro a ha
    obtain ⟨j, hj⟩ := mem_exists_get? ha
    have hj3 : j < 3 := by
      have hlt := lt_length_of_get?_eq_some hj
      have hlen1 := hG1m.1
      omega
    obtain ⟨a', ha', haid, halen, hanone⟩ := hG1m.2 j hj3
    have haa : a = a' := by rw [hj] at ha'; injection ha'
    subst haa
    exact ⟨by rw [halen, if_pos (hd1all j hj3)], hanone⟩
  · have hR0 : responded 3 [] (schedule_step llm shuffle1 rs1 model3).agents := by
      refine ⟨hG1m.1, ?_⟩
      intro j hj
      obtain ⟨a, ha, haid, halen, hanone⟩ := hG1m.2 j hj
      have hl1 : a.conversation_history.length = 1 := by
        rw [halen, if_pos (hd1all j hj)]
      refine ⟨a, ha, haid, by simp [hl1], ?_⟩
      intro msg hmsg
      rw [List.get?_eq_none.mpr (le_of_eq hl1)] at hmsg
      cases hmsg
    have hst2 : (schedule_step llm shuffle1 rs1 model3).steps + 1 ≠ 1 := by
      show (2 : Nat) ≠ 1
      decide
    obtain ⟨done2, hdone2, hR2⟩ :=
      foldl_inv (responded 3)
        (fun acc i => ConversationAgent.step llm
          ((schedule_step llm shuffle1 rs1 model3).steps + 1) (rs2 i) acc i) 3
        (fun done ags i hi hnd hR => respond_step_inv llm f hllm 3
          ((schedule_step llm shuffle1 rs1 model3).steps + 1) (rs2 i) hst2 (by omega)
          done ags i hi hnd hR)
        (agent_buffer shuffle2 (schedule_step llm shuffle1 rs1 model3)) []
        (schedule_step llm shuffle1 rs1 model3).agents
        (h2.nodup_iff.mpr (List.nodup_range 3))
        (fun i hi => ⟨List.mem_range.mp (h2.mem_iff.mp hi), List.not_mem_nil i⟩)
        hR0
    have hR2m : responded 3 done2
        (schedule_step llm shuffle2 rs2 (schedule_step llm shuffle1 rs1 model3)).agents := hR2
    have hd2all : ∀ j, j < 3 → j ∈ done2 := fun j hj =>
      (hdone2 j).mpr (Or.inl (h2.mem_iff.mpr (List.mem_range.mpr hj)))
    refine ⟨hR2m.1, ?_⟩
    intro a ha
    obtain ⟨j, hj⟩ := mem_exists_get? ha
    have hj3 : j < 3 := by
      have hlt := lt_length_of_get?_eq_some hj
      have hlen2 := hR2m.1
      omega
    obtain ⟨a', ha', haid, halen, haresp⟩ := hR2m.2 j hj3
    have haa : a = a' := by rw [hj] at ha'; injection ha'
    subst haa
    refine ⟨by rw [haid]; exact hj3, by rw [halen, if_pos (hd2all j hj3)], ?_⟩
    intro msg hmsg
    obtain ⟨k, hk1, hk2, hk3⟩ := haresp msg hmsg
    exact ⟨k, hk1, hk2, by rw [haid]; exact hk3⟩

/-- Witness for C4: identity shuffles, constant draws, the always-"hi"
LLM, starting from the freshly constructed three-agent model. -/
theorem c4_witness :
    ((schedule_step llm_hi id (fun _ => 0) model3).agents.length = 3 ∧
      ∀ a ∈ (schedule_step llm_hi id (fun _ => 0) model3).agents,
        a.conversation_history.length = 1 ∧
        ∀ msg ∈ a.conversation_history, msg.responding_to = none) ∧
    ((schedule_step llm_hi id (fun _ => 0)
        (schedule_step llm_hi id (fun _ => 0) model3)).agents.length = 3 ∧
      ∀ a ∈ (schedule_step llm_hi id (fun _ => 0)
          (schedule_step llm_hi id (fun _ => 0) model3)).agents,
        a.unique_id < 3 ∧ a.conversation_history.length = 2 ∧
        ∀ msg, a.conversation_history.get? 1 = some msg →
          ∃ k, msg.responding_to = some k ∧ k < 3 ∧ k ≠ a.unique_id) :=
  c4_first_step_greetings_second_step_responses llm_hi reply_hi (fun _ => rfl)
    id id (fun _ => 0) (fun _ => 0) model3
    (schedule_step llm_hi id (fun _ => 0) model3)
    (schedule_step llm_hi id (fun _ => 0) (schedule_step llm_hi id (fun _ => 0) model3))
    rfl rfl rfl (List.Perm.refl _) (List.Perm.refl _)
